import Mathlib

/-!
Shallow embedding of the negroni-sessions middleware (sessions.go,
cookie_token.go, errors.go) and of its MongoDB-style backend stores
(mongostore/main.go and the dalstore adapter), with theorems settling
the frozen claims about this code.

Conventions of the embedding:
* Go `interface{}` values are modelled by the inductive `GoVal`; a Go map
  with `interface{}` keys is an association list with Go map semantics
  (lookup of an absent key yields `GoVal.vNil`, i.e. Go's nil).
* Go errors are the inductive `GoErr`; a fallible call returns
  `Except GoErr _` or reports `Option GoErr`.
* External collaborators (the securecookie codec, the mgo/dal driver
  calls, the store's `Get`) are passed in as function parameters, since
  the repository delegates them entirely to external libraries; theorems
  quantify over them.
-/

namespace NegroniSessions

/-- Scalar Go `interface{}` values as they occur in this code base: nil,
strings, integers and `time.Time` stamps (as a tick count). -/
inductive GoBase where
  | bNil : GoBase
  | bStr : String → GoBase
  | bInt : Int → GoBase
  | bTime : Nat → GoBase
deriving DecidableEq, Repr

/-- Go `interface{}` values: a scalar, or a `[]interface{}` slice of
scalars (the shape gorilla's flash messages use). -/
inductive GoVal where
  | base : GoBase → GoVal
  | vList : List GoBase → GoVal
deriving DecidableEq, Repr

/-- Go's `nil`. -/
def GoVal.vNil : GoVal := .base .bNil

/-- A Go string value. -/
def GoVal.vStr (s : String) : GoVal := .base (.bStr s)

/-- A Go `time.Time` value. -/
def GoVal.vTime (t : Nat) : GoVal := .base (.bTime t)

/-- A Go `map[interface{}]interface{}` as an association list whose keys are
pairwise distinct by construction of the operations below. -/
abbrev GoValues := List (GoVal × GoVal)

/-- Go map read `m[key]`: the zero value `nil` when the key is absent. -/
def mapGet (m : GoValues) (k : GoVal) : GoVal :=
  match m.find? (fun p => p.1 == k) with
  | some p => p.2
  | none => .vNil

/-- Go map read with presence bit, `v, ok := m[key]`. -/
def mapLookup (m : GoValues) (k : GoVal) : Option GoVal :=
  (m.find? (fun p => p.1 == k)).map (·.2)

/-- Go map delete `delete(m, key)`. -/
def mapDel (m : GoValues) (k : GoVal) : GoValues :=
  m.filter (fun p => !(p.1 == k))

/-- Go map write `m[key] = v` (replaces any previous binding). -/
def mapSet (m : GoValues) (k v : GoVal) : GoValues :=
  (k, v) :: mapDel m k

/-- `sessions.Options` / gorilla `sessions.Options` (the fields this code
copies between the two). -/
structure GOptions where
  path : String
  domain : String
  maxAge : Int
  secure : Bool
  httpOnly : Bool
deriving DecidableEq, Repr

/-- A gorilla `*sessions.Session` as used by this repository: its ID, its
Values map, its IsNew flag, its Options and its name. -/
structure GSession where
  name : String
  id : String
  values : GoValues
  isNew : Bool
  opts : GOptions
deriving DecidableEq, Repr

/-- The errors this code can meet: the repository's own `ErrInvalidId` and
`ErrInvalidModified` (errors.go) and opaque errors coming back from the
codec, the cookie read, or a database driver call. -/
inductive GoErr where
  | errInvalidId : GoErr
  | errInvalidModified : GoErr
  | errNotFound : GoErr
  | errOther : Nat → GoErr
deriving DecidableEq, Repr

/-- gorilla's default flash key `"_flash"`; `AddFlash`/`Flashes` take an
optional variadic override. -/
def flashKey (vars : Option String) : GoVal :=
  .vStr (vars.getD "_flash")

/-- gorilla `Session.AddFlash`: append the value to the slice stored under
the flash key (an absent key contributes the empty slice). -/
def gAddFlash (m : GoValues) (v : GoBase) (vars : Option String) : GoValues :=
  let k := flashKey vars
  let old := match mapLookup m k with
    | some (.vList xs) => xs
    | _ => []
  mapSet m k (.vList (old ++ [v]))

/-- gorilla `Session.Flashes`: read the slice under the flash key, deleting
the key when present. Returns the flashes and the updated map. -/
def gFlashes (m : GoValues) (vars : Option String) : List GoBase × GoValues :=
  let k := flashKey vars
  match mapLookup m k with
  | some v =>
      let xs := match v with
        | .vList xs => xs
        | _ => []
      (xs, mapDel m k)
  | none => ([], m)

/-! ### The middleware wrapper (sessions.go)

`session` wraps a lazily loaded gorilla session: the struct literal in
`Sessions` is `&session{name, r, store, nil, false}` — no cached session
and `written = false`. Each wrapper method first calls `s.Session()`,
which calls `store.Get` once and caches the result. We track the cached
session, the number of `store.Get` calls, and the `written` flag; the
store's answer is the parameter `storeGet` (gorilla stores always return
a session object). -/

/-- The state of one request's `session` wrapper. -/
structure MwState where
  cached : Option GSession
  getCalls : Nat
  written : Bool
deriving DecidableEq, Repr

/-- `&session{name, r, store, nil, false}` in `Sessions`. -/
def initState : MwState := ⟨none, 0, false⟩

/-- `s.Session()`: load via `store.Get` on first use, cache, reuse after. -/
def ensureSession (storeGet : GSession) (st : MwState) : GSession × MwState :=
  match st.cached with
  | some s => (s, st)
  | none => (storeGet, ⟨some storeGet, st.getCalls + 1, st.written⟩)

/-- The session operations a handler can perform on the wrapper. -/
inductive Op where
  | get (k : GoVal)
  | set (k v : GoVal)
  | del (k : GoVal)
  | clear
  | addFlash (v : GoBase) (vars : Option String)
  | flashes (vars : Option String)
  | options (o : GOptions)
deriving DecidableEq, Repr

/-- One wrapper method call. Every method begins with `s.Session()`.
`Get` only reads; `Set`/`Delete`/`AddFlash`/`Flashes` mutate and set
`written`; `Clear` ranges over the keys calling `s.Delete`, so it sets
`written` only when at least one key exists; `Options` replaces the
session's options without touching `written`. -/
def applyOp (storeGet : GSession) (st : MwState) (op : Op) : MwState :=
  let (s, st1) := ensureSession storeGet st
  match op with
  | .get _ => st1
  | .set k v =>
      ⟨some { s with values := mapSet s.values k v }, st1.getCalls, true⟩
  | .del k =>
      ⟨some { s with values := mapDel s.values k }, st1.getCalls, true⟩
  | .clear =>
      ⟨some { s with values := [] }, st1.getCalls,
        st1.written || !s.values.isEmpty⟩
  | .addFlash v vars =>
      ⟨some { s with values := gAddFlash s.values v vars }, st1.getCalls, true⟩
  | .flashes vars =>
      ⟨some { s with values := (gFlashes s.values vars).2 }, st1.getCalls, true⟩
  | .options o =>
      ⟨some { s with opts := o }, st1.getCalls, st1.written⟩

/-- A handler's whole request: the operations in order. -/
def runOps (storeGet : GSession) (st : MwState) : List Op → MwState
  | [] => st
  | op :: rest => runOps storeGet (applyOp storeGet st op) rest

/-- The `rw.Before` hook of `Sessions`: `if s.Written() { ... Save ... }`.
True exactly when the hook invokes the store's Save. -/
def beforeHookSaves (st : MwState) : Bool := st.written

/-- The value `session.Get(k)` would return in state `st`:
`s.Session().Values[key]`. -/
def opGetResult (storeGet : GSession) (st : MwState) (k : GoVal) : GoVal :=
  mapGet (ensureSession storeGet st).1.values k

/-- `session.Written()`. -/
def written (st : MwState) : Bool := st.written

/-! ### GetSession (sessions.go)

`GetSession` type-asserts the request context's value at `sessionKey` to
`*session` and returns nil when the assertion fails (no value, or a value
of another type). -/

/-- What a request context may hold at `sessionKey`: the middleware's
`*session` wrapper (as its `MwState`), or a value of some other type. -/
inductive CtxVal where
  | sessionVal : MwState → CtxVal
  | otherVal : Nat → CtxVal
deriving DecidableEq, Repr

/-- `GetSession`: `if s, ok := req.Context().Value(sessionKey).(*session); ok
{ return s }; return nil`. `none` is Go's nil. -/
def GetSession : Option CtxVal → Option MwState
  | some (.sessionVal s) => some s
  | _ => none

/-! ### The MongoDB-backed store (mongostore/main.go) and the dal adapter
(the dalstore package)

The driver and codec calls are environment parameters:
* `find id` is `c.FindId(bson.ObjectIdHex(id)).One(&s)`;
* `upsertRes id doc` is the error of `c.UpsertId(bson.ObjectIdHex(id), &s)`;
* `removeRes id` is the error of `c.RemoveId(bson.ObjectIdHex(id))`;
* `decodeCookie name cook` is `securecookie.DecodeMulti(name, cook, &session.ID, codecs)`;
* `decodeData name data` is `securecookie.DecodeMulti(name, data, &session.Values, codecs)`;
* `encodeCookie name id` is `securecookie.EncodeMulti(name, id, codecs)`;
* `encodeData name values` is `securecookie.EncodeMulti(name, values, codecs)`;
* `getToken` is `m.Token.GetToken(r, name)` (the request's cookie value).
The outcome records which backend writes happened (`upserted`, `removed`)
and the cookie value passed to `SetToken`, when one was. -/

/-- A character `encoding/hex` accepts. -/
def isHexChar (c : Char) : Bool :=
  c.isDigit || (decide ('a'.toNat ≤ c.toNat) && decide (c.toNat ≤ 'f'.toNat))
    || (decide ('A'.toNat ≤ c.toNat) && decide (c.toNat ≤ 'F'.toNat))

/-- `bson.IsObjectIdHex` / `dal.IsObjectIDHex`: exactly 24 hex characters. -/
def isObjectIdHex (s : String) : Bool :=
  s.length == 24 && s.data.all isHexChar

/-- The stored document `mongoSession` (its `_id` is the list key under
which it is upserted). -/
structure MongoDoc where
  data : String
  modified : Nat
deriving DecidableEq, Repr

/-- Result of `mongoStore.load`: the `(bool, error)` pair, the session as
left by the call (its Values are set on success), and whether the backend
fetch was reached. -/
structure LoadOutcome where
  ok : Bool
  err : Option GoErr
  session : GSession
  findCalled : Bool
deriving DecidableEq, Repr

/-- `mongoStore.load`: reject a non-ObjectId-hex ID before touching the
backend; fetch the document by id; decode its Data into the session's
Values. -/
def mongoLoad (find : String → Except GoErr MongoDoc)
    (decodeData : String → String → Except GoErr GoValues)
    (session : GSession) : LoadOutcome :=
  if !isObjectIdHex session.id then ⟨false, some .errInvalidId, session, false⟩
  else
    match find session.id with
    | .error e => ⟨false, some e, session, true⟩
    | .ok doc =>
      match decodeData session.name doc.data with
      | .error e => ⟨false, some e, session, true⟩
      | .ok vals => ⟨true, none, { session with values := vals }, true⟩

/-- Result of a store's `New`: the session and the returned error. -/
structure NewOutcome where
  session : GSession
  err : Option GoErr
deriving DecidableEq, Repr

/-- `mongoStore.New` copies only Path and MaxAge into the new session's
options. -/
def newSessionOptsMongo (store : GOptions) : GOptions :=
  ⟨store.path, "", store.maxAge, false, false⟩

/-- `mongoStore.New`: start from a fresh `IsNew = true` session; when the
request carries a cookie and it decodes to an id, try `load`; the inner
`ok, err := m.load(session)` shadows the outer `err`, so a load failure is
never returned. -/
def mongoNew (getToken : Except GoErr String)
    (decodeCookie : String → String → Except GoErr String)
    (find : String → Except GoErr MongoDoc)
    (decodeData : String → String → Except GoErr GoValues)
    (name : String) (storeOpts : GOptions) : NewOutcome :=
  let session : GSession :=
    { name := name, id := "", values := [], isNew := true,
      opts := newSessionOptsMongo storeOpts }
  match getToken with
  | .error _ => ⟨session, none⟩
  | .ok cook =>
    match decodeCookie name cook with
    | .error e => ⟨session, some e⟩
    | .ok id =>
      let r := mongoLoad find decodeData { session with id := id }
      ⟨{ r.session with isNew := !(r.err == none && r.ok) }, none⟩

/-- `dalStore.New` (the dalstore package): identical control flow to
`mongoStore.New`, except the new session receives a full copy of the
store's options. -/
def dalNew (getToken : Except GoErr String)
    (decodeCookie : String → String → Except GoErr String)
    (find : String → Except GoErr MongoDoc)
    (decodeData : String → String → Except GoErr GoValues)
    (name : String) (storeOpts : GOptions) : NewOutcome :=
  let session : GSession :=
    { name := name, id := "", values := [], isNew := true, opts := storeOpts }
  match getToken with
  | .error _ => ⟨session, none⟩
  | .ok cook =>
    match decodeCookie name cook with
    | .error e => ⟨session, some e⟩
    | .ok id =>
      let r := mongoLoad find decodeData { session with id := id }
      ⟨{ r.session with isNew := !(r.err == none && r.ok) }, none⟩

/-- `session.Values["modified"]`: a present value must be a `time.Time`,
otherwise `ErrInvalidModified`; an absent key means `time.Now()`. -/
def getModified (values : GoValues) (now : Nat) : Except GoErr Nat :=
  match mapLookup values (.vStr "modified") with
  | some (.base (.bTime t)) => .ok t
  | some _ => .error .errInvalidModified
  | none => .ok now

/-- Result of the lower-case `save`/`delete` helpers: the error, and the
backend write performed (none when the driver call failed or was never
reached). -/
structure DocSaveOutcome where
  err : Option GoErr
  upserted : Option (String × MongoDoc)
deriving DecidableEq, Repr

/-- `mongoStore.save`: reject a non-ObjectId-hex ID; read `modified`;
codec-encode the whole Values map into the document's Data; upsert the
document under the session's id. -/
def mongoSaveDoc (encodeData : String → GoValues → Except GoErr String)
    (upsertRes : String → MongoDoc → Option GoErr)
    (now : Nat) (session : GSession) : DocSaveOutcome :=
  if !isObjectIdHex session.id then ⟨some .errInvalidId, none⟩
  else
    match getModified session.values now with
    | .error e => ⟨some e, none⟩
    | .ok modified =>
      match encodeData session.name session.values with
      | .error e => ⟨some e, none⟩
      | .ok data =>
        let doc : MongoDoc := ⟨data, modified⟩
        match upsertRes session.id doc with
        | some e => ⟨some e, none⟩
        | none => ⟨none, some (session.id, doc)⟩

/-- Result of `mongoStore.delete`. -/
structure DeleteOutcome where
  err : Option GoErr
  removed : Option String
deriving DecidableEq, Repr

/-- `mongoStore.delete`: reject a non-ObjectId-hex ID; remove the document
by id. -/
def mongoDeleteDoc (removeRes : String → Option GoErr)
    (session : GSession) : DeleteOutcome :=
  if !isObjectIdHex session.id then ⟨some .errInvalidId, none⟩
  else
    match removeRes session.id with
    | some e => ⟨some e, none⟩
    | none => ⟨none, some session.id⟩

/-- Result of a store's `Save`: the returned error, the cookie value passed
to `SetToken` (none when `SetToken` was not called), the backend writes,
and the session as left by the call (its ID may have been freshly
assigned). -/
structure SaveOutcome where
  err : Option GoErr
  cookie : Option String
  upserted : Option (String × MongoDoc)
  removed : Option String
  session : GSession
deriving DecidableEq, Repr

/-- The `if session.ID == "" { session.ID = bson.NewObjectId().Hex() }`
step of `Save`; `freshId` stands for the generated hex. -/
def saveTarget (freshId : String) (session : GSession) : GSession :=
  if session.id == "" then { session with id := freshId } else session

/-- `mongoStore.Save`: a negative MaxAge deletes the document and, on
success, sets the empty cookie; otherwise an empty ID gets a fresh
ObjectId hex (`freshId` stands for `bson.NewObjectId().Hex()`), the
document is saved, the id alone is codec-encoded, and only then is the
cookie set. -/
def mongoSave (encodeCookie : String → String → Except GoErr String)
    (encodeData : String → GoValues → Except GoErr String)
    (upsertRes : String → MongoDoc → Option GoErr)
    (removeRes : String → Option GoErr)
    (freshId : String) (now : Nat) (session : GSession) : SaveOutcome :=
  if session.opts.maxAge < 0 then
    let d := mongoDeleteDoc removeRes session
    match d.err with
    | some e => ⟨some e, none, none, none, session⟩
    | none => ⟨none, some "", none, d.removed, session⟩
  else
    let s1 := saveTarget freshId session
    let sv := mongoSaveDoc encodeData upsertRes now s1
    match sv.err with
    | some e => ⟨some e, none, sv.upserted, none, s1⟩
    | none =>
      match encodeCookie s1.name s1.id with
      | .error e => ⟨some e, none, sv.upserted, none, s1⟩
      | .ok enc => ⟨none, some enc, sv.upserted, none, s1⟩

/-- `dalStore.Save` (the dalstore package): the same control flow as
`mongoStore.Save` — delete on negative MaxAge, fresh id when empty,
upsert the codec-encoded Values as the document's Data, then set the
cookie to the codec-encoded id (its final `return err` returns the nil
already tested). The dal document's extra ID field equals the key it is
upserted under, so the same document shape is reused. -/
def dalSave (encodeCookie : String → String → Except GoErr String)
    (encodeData : String → GoValues → Except GoErr String)
    (upsertRes : String → MongoDoc → Option GoErr)
    (removeRes : String → Option GoErr)
    (freshId : String) (now : Nat) (session : GSession) : SaveOutcome :=
  if session.opts.maxAge < 0 then
    let d := mongoDeleteDoc removeRes session
    match d.err with
    | some e => ⟨some e, none, none, none, session⟩
    | none => ⟨none, some "", none, d.removed, session⟩
  else
    let s1 := saveTarget freshId session
    let sv := mongoSaveDoc encodeData upsertRes now s1
    match sv.err with
    | some e => ⟨some e, none, sv.upserted, none, s1⟩
    | none =>
      match encodeCookie s1.name s1.id with
      | .error e => ⟨some e, none, sv.upserted, none, s1⟩
      | .ok enc => ⟨none, some enc, sv.upserted, none, s1⟩

/-! ### Predicates and fixtures used to state the claims -/

/-- The operations claim C1 and claim C10 list as marking the session
written: Set, Delete, Clear, AddFlash and Flashes. -/
def claimMutatingOp : Op → Bool
  | .set _ _ => true
  | .del _ => true
  | .clear => true
  | .addFlash _ _ => true
  | .flashes _ => true
  | .get _ => false
  | .options _ => false

/-- Whether one wrapper call marks the session written, given the session
the wrapper sees at that moment: Set, Delete, AddFlash and Flashes always
do; Clear does exactly when the session holds at least one value (it only
calls `s.Delete` once per existing key); Get and Options never do. -/
def marksWritten (s : GSession) : Op → Bool
  | .set _ _ => true
  | .del _ => true
  | .clear => !s.values.isEmpty
  | .addFlash _ _ => true
  | .flashes _ => true
  | .get _ => false
  | .options _ => false

/-- Whether some operation of the request marks the session written, each
judged against the session state current when it runs. -/
def anyMark (storeGet : GSession) : MwState → List Op → Bool
  | _, [] => false
  | st, op :: rest =>
      marksWritten (ensureSession storeGet st).1 op
        || anyMark storeGet (applyOp storeGet st op) rest

/-- Zero options, as a store built with only a MaxAge would hold. -/
def opts0 : GOptions := ⟨"", "", 0, false, false⟩

/-- A store-returned session with no values, as a backend returns for a
request without a prior session. -/
def emptyStoreSession : GSession := ⟨"my_session", "", [], true, opts0⟩

/-- A 24-character hex string, a valid `bson.ObjectId` hex. -/
def sampleHexId : String := "0123456789abcdef01234567"

/-- A concrete cookie codec that marks the id it encodes. -/
def ecSample : String → String → Except GoErr String := fun _ i => .ok ("c:" ++ i)

/-- A concrete data codec with a fixed payload. -/
def edSample : String → GoValues → Except GoErr String := fun _ _ => .ok "payload"

/-- A driver whose upserts always succeed. -/
def upOk : String → MongoDoc → Option GoErr := fun _ _ => none

/-- A driver whose removes always succeed. -/
def rmOk : String → Option GoErr := fun _ => none

/-- A fresh session about to be saved with MaxAge 10. -/
def saveSession : GSession := ⟨"my_session", "", [], true, ⟨"", "", 10, false, false⟩⟩

/-- The outcome of saving `saveSession` through the concrete codec and
driver. -/
def saveOutcomeSample : SaveOutcome :=
  mongoSave ecSample edSample upOk rmOk sampleHexId 7 saveSession

/-- A driver whose removes always fail with driver error 7. -/
def rmFail : String → Option GoErr := fun _ => some (.errOther 7)

/-- A loaded session with a valid ObjectId hex id, marked for deletion by
a negative MaxAge. -/
def delSession : GSession := ⟨"my_session", sampleHexId, [], false, ⟨"", "", -1, false, false⟩⟩

/-- A fresh session (empty id) whose options carry MaxAge -1. -/
def negSession : GSession := ⟨"my_session", "", [], true, ⟨"", "", -1, false, false⟩⟩

/-- A backend with no documents. -/
def findNx : String → Except GoErr MongoDoc := fun _ => .error .errNotFound

/-- A data codec that decodes everything to the empty map. -/
def ddNil : String → String → Except GoErr GoValues := fun _ _ => .ok []

/-- A session whose id is not an ObjectId hex. -/
def badIdSession : GSession := ⟨"my_session", "zzz", [], false, opts0⟩

/-! ## Theorems -/

/-- Go map: reading a key right after writing it yields the written value. -/
theorem mapGet_mapSet_self (m : GoValues) (k v : GoVal) :
    mapGet (mapSet m k v) k = v := by
  simp [mapGet, mapSet, List.find?]

/-- Go map: reading a key right after deleting it yields nil. -/
theorem mapGet_mapDel_self (m : GoValues) (k : GoVal) :
    mapGet (mapDel m k) k = GoVal.vNil := by
  induction m with
  | nil => rfl
  | cons a as ih =>
    by_cases h : a.1 == k
    · simpa [mapDel, List.filter, h] using ih
    · simpa [mapDel, mapGet, List.filter, List.find?, h] using ih

/-- C8: the session behaves as a key/value bag: Get after Set returns the
set value, Get after Delete returns nil, and after Clear every Get
returns nil. -/
theorem session_kv_bag (g : GSession) (st : MwState) (k v : GoVal) :
    opGetResult g (applyOp g st (.set k v)) k = v ∧
    opGetResult g (applyOp g st (.del k)) k = GoVal.vNil ∧
    (∀ k2, opGetResult g (applyOp g st .clear) k2 = GoVal.vNil) := by
  refine ⟨?_, ?_, ?_⟩
  · cases h : st.cached <;>
      simp [applyOp, ensureSession, opGetResult, h, mapGet_mapSet_self]
  · cases h : st.cached <;>
      simp [applyOp, ensureSession, opGetResult, h, mapGet_mapDel_self]
  · intro k2
    cases h : st.cached <;>
      simp [applyOp, ensureSession, opGetResult, h, mapGet]

/-- C9: on a request whose context the Sessions middleware did not
populate, GetSession returns nil (it never panics: it is a total
function). -/
theorem getSession_unpopulated_nil (c : Option CtxVal)
    (h : ∀ s, c ≠ some (CtxVal.sessionVal s)) : GetSession c = none := by
  match c with
  | none => rfl
  | some (.sessionVal s) => exact absurd rfl (h s)
  | some (.otherVal n) => rfl

/-- Witness for C9 at the empty context. -/
theorem getSession_unpopulated_nil_witness : GetSession none = none :=
  getSession_unpopulated_nil none (by intro s h; cases h)

/-- Every wrapper call leaves a cached session behind. -/
theorem applyOp_cached_isSome (g : GSession) (st : MwState) (op : Op) :
    (applyOp g st op).cached.isSome = true := by
  cases op <;> cases h : st.cached <;> simp [applyOp, ensureSession, h]

/-- Once a session is cached, a wrapper call performs no further
`store.Get`. -/
theorem applyOp_getCalls_cached (g : GSession) (st : MwState) (op : Op)
    (h : st.cached.isSome = true) :
    (applyOp g st op).getCalls = st.getCalls := by
  cases hc : st.cached with
  | none => rw [hc] at h; cases h
  | some s => cases op <;> simp [applyOp, ensureSession, hc]

/-- Once a session is cached, a whole run of wrapper calls performs no
further `store.Get`. -/
theorem runOps_getCalls_cached (g : GSession) (ops : List Op) : ∀ st : MwState,
    st.cached.isSome = true → (runOps g st ops).getCalls = st.getCalls := by
  induction ops with
  | nil => intro st _; rfl
  | cons op rest ih =>
    intro st h
    rw [runOps, ih _ (applyOp_cached_isSome g st op),
      applyOp_getCalls_cached g st op h]

/-- C6: the session is loaded lazily: a request with no session operation
never calls `store.Get`, a request with at least one calls it exactly
once (on the first operation), and any operation run with a session
already cached triggers no further `store.Get`. -/
theorem store_get_called_lazily_once (g : GSession) (ops : List Op)
    (st : MwState) (op : Op) :
    ((runOps g initState ops).getCalls = if ops.isEmpty then 0 else 1) ∧
    (st.cached.isSome = true → (applyOp g st op).getCalls = st.getCalls) := by
  refine ⟨?_, applyOp_getCalls_cached g st op⟩
  cases ops with
  | nil => rfl
  | cons op0 rest =>
    rw [runOps, runOps_getCalls_cached g rest _ (applyOp_cached_isSome g initState op0)]
    cases op0 <;> simp [applyOp, ensureSession, initState]

/-- A wrapper call's effect on the written flag: it stays set, and is
newly set exactly when `marksWritten` says so for the session seen by the
call. -/
theorem applyOp_written_eq (g : GSession) (st : MwState) (op : Op) :
    (applyOp g st op).written
      = (st.written || marksWritten (ensureSession g st).1 op) := by
  cases op <;> cases h : st.cached <;>
    simp [applyOp, ensureSession, marksWritten, h]

/-- The written flag after a run: its initial value, or some call of the
run marked it. -/
theorem runOps_written_eq (g : GSession) (ops : List Op) : ∀ st : MwState,
    (runOps g st ops).written = (st.written || anyMark g st ops) := by
  induction ops with
  | nil => intro st; simp [runOps, anyMark]
  | cons op rest ih =>
    intro st
    rw [runOps, ih, applyOp_written_eq, anyMark]
    simp [Bool.or_assoc]

/-- C1 (amended): the Before hook invokes the store's Save exactly when
some operation of the request marked the session written — Set, Delete,
AddFlash and Flashes always do, Clear only when the session held at least
one value at that moment. -/
theorem before_hook_saves_iff_marked (g : GSession) (ops : List Op) :
    beforeHookSaves (runOps g initState ops) = anyMark g initState ops := by
  simpa [beforeHookSaves, initState] using runOps_written_eq g ops initState

/-- C1 counterexample: a request whose only operation is `Clear` on a
session with no values calls one of the claim's five mutating operations,
yet the Before hook performs no Save. -/
theorem clear_on_empty_session_no_save :
    [Op.clear].any claimMutatingOp = true ∧
    beforeHookSaves (runOps emptyStoreSession initState [Op.clear]) = false := by
  decide

/-- C10 (amended): `Written()` is false when the request begins; Set,
Delete, AddFlash and Flashes each set it; Clear sets it exactly when the
session currently holds a value; Get and Options leave it as it is; and
no operation ever resets it. -/
theorem written_flag_dynamics (g : GSession) (st : MwState) (k v : GoVal)
    (b : GoBase) (vars : Option String) (o : GOptions) :
    written initState = false ∧
    (st.written = true → ∀ op, written (applyOp g st op) = true) ∧
    written (applyOp g st (.set k v)) = true ∧
    written (applyOp g st (.del k)) = true ∧
    written (applyOp g st (.addFlash b vars)) = true ∧
    written (applyOp g st (.flashes vars)) = true ∧
    written (applyOp g st .clear)
      = (st.written || !(ensureSession g st).1.values.isEmpty) ∧
    written (applyOp g st (.get k)) = st.written ∧
    written (applyOp g st (.options o)) = st.written := by
  refine ⟨rfl, ?_, ?_, ?_, ?_, ?_, ?_, ?_, ?_⟩
  · intro hw op
    rw [written, applyOp_written_eq, hw, Bool.true_or]
  all_goals
    cases h : st.cached <;> simp [written, applyOp, ensureSession, h]

/-- C10 counterexample: `Clear` is among the request's operations, yet at
the end of the request `Written()` is still false, because the session
had no values when `Clear` ran. -/
theorem written_false_after_clear_on_empty :
    Op.clear ∈ [Op.get (GoVal.vStr "k"), Op.clear] ∧
    written (runOps emptyStoreSession initState
      [Op.get (GoVal.vStr "k"), Op.clear]) = false := by
  decide

/-- C2: a store's `New` returns `IsNew = false` exactly when the request
carried a cookie, the codec decoded it to an id, and the backend document
for that id was fetched (the id passing the ObjectId-hex gate that guards
the fetch) and decoded successfully; and the returned error is non-nil
exactly when the cookie decode itself failed — a failure inside the
fetch-by-id step is never returned (the inner `err` shadows the outer
one). Stated for `mongoStore.New` and `dalStore.New` alike. -/
theorem store_new_isnew_and_error (gt : Except GoErr String)
    (dc : String → String → Except GoErr String)
    (find : String → Except GoErr MongoDoc)
    (dd : String → String → Except GoErr GoValues)
    (name : String) (so : GOptions) :
    ((mongoNew gt dc find dd name so).session.isNew = false ↔
      ∃ cook id doc vals, gt = .ok cook ∧ dc name cook = .ok id ∧
        isObjectIdHex id = true ∧ find id = .ok doc ∧
        dd name doc.data = .ok vals) ∧
    (∀ e, (mongoNew gt dc find dd name so).err = some e ↔
      ∃ cook, gt = .ok cook ∧ dc name cook = .error e) ∧
    ((dalNew gt dc find dd name so).session.isNew = false ↔
      ∃ cook id doc vals, gt = .ok cook ∧ dc name cook = .ok id ∧
        isObjectIdHex id = true ∧ find id = .ok doc ∧
        dd name doc.data = .ok vals) ∧
    (∀ e, (dalNew gt dc find dd name so).err = some e ↔
      ∃ cook, gt = .ok cook ∧ dc name cook = .error e) := by
  refine ⟨?_, ?_, ?_, ?_⟩ <;>
  · first
    | (cases gt with
       | error e0 => simp [mongoNew, dalNew]
       | ok cook =>
         cases hdc : dc name cook with
         | error e1 => simp [mongoNew, dalNew, hdc]
         | ok id =>
           by_cases hex : isObjectIdHex id
           · cases hfind : find id with
             | error e2 => simp [mongoNew, dalNew, mongoLoad, hdc, hex, hfind]
             | ok doc =>
               cases hdd : dd name doc.data with
               | error e3 =>
                   simp [mongoNew, dalNew, mongoLoad, hdc, hex, hfind, hdd]
               | ok vals =>
                   simp [mongoNew, dalNew, mongoLoad, hdc, hex, hfind, hdd]
           · simp [mongoNew, dalNew, mongoLoad, hdc, hex])

/-- `saveTarget` only ever changes the session's id. -/
theorem saveTarget_fields (freshId : String) (s : GSession) :
    (saveTarget freshId s).name = s.name ∧
    (saveTarget freshId s).values = s.values ∧
    (saveTarget freshId s).opts = s.opts := by
  unfold saveTarget; split <;> exact ⟨rfl, rfl, rfl⟩

/-- When `mongoStore.save` succeeds it has codec-encoded the whole Values
map and upserted the resulting document under the session's id. -/
theorem mongoSaveDoc_ok_shape (ed : String → GoValues → Except GoErr String)
    (up : String → MongoDoc → Option GoErr) (now : Nat) (s : GSession)
    (h : (mongoSaveDoc ed up now s).err = none) :
    ∃ data modified, ed s.name s.values = .ok data ∧
      (mongoSaveDoc ed up now s).upserted = some (s.id, ⟨data, modified⟩) := by
  unfold mongoSaveDoc at h ⊢
  cases hex : isObjectIdHex s.id with
  | false => simp [hex] at h
  | true =>
    simp only [hex, Bool.not_true, Bool.false_eq_true, if_false] at h ⊢
    cases hmod : getModified s.values now with
    | error e => simp [hmod] at h
    | ok md =>
      simp only [hmod] at h ⊢
      cases hed : ed s.name s.values with
      | error e => simp [hed] at h
      | ok data =>
        simp only [hed] at h ⊢
        cases hup : up s.id ⟨data, md⟩ with
        | some e => simp [hup] at h
        | none => exact ⟨data, md, rfl, by simp [hup]⟩

/-- The dal adapter's `Save` is the same function as the mongo one in this
embedding (the Go sources differ only in driver names, the document's
redundant ID field and a final `return err` of an already-nil error). -/
theorem dalSave_eq_mongoSave (ec : String → String → Except GoErr String)
    (ed : String → GoValues → Except GoErr String)
    (up : String → MongoDoc → Option GoErr) (rm : String → Option GoErr)
    (freshId : String) (now : Nat) (s : GSession) :
    dalSave ec ed up rm freshId now s = mongoSave ec ed up rm freshId now s := rfl

/-- C3: a successful `Save` with non-negative MaxAge writes a cookie that
codec-encodes only the session id, while the full Values map is
codec-encoded into the Data field of the document upserted under that id;
nothing is removed, and `dalStore.Save` behaves identically. -/
theorem save_cookie_carries_only_id
    (ec : String → String → Except GoErr String)
    (ed : String → GoValues → Except GoErr String)
    (up : String → MongoDoc → Option GoErr) (rm : String → Option GoErr)
    (freshId : String) (now : Nat) (session : GSession) (o : SaveOutcome)
    (hO : o = mongoSave ec ed up rm freshId now session)
    (hAge : 0 ≤ session.opts.maxAge) (hOk : o.err = none) :
    (∃ encId data modified,
      ec o.session.name o.session.id = .ok encId ∧
      o.cookie = some encId ∧
      ed session.name session.values = .ok data ∧
      o.upserted = some (o.session.id, ⟨data, modified⟩) ∧
      o.removed = none) ∧
    dalSave ec ed up rm freshId now session
      = mongoSave ec ed up rm freshId now session := by
  subst hO
  refine ⟨?_, rfl⟩
  have hlt : ¬ session.opts.maxAge < 0 := not_lt.mpr hAge
  simp only [mongoSave, if_neg hlt] at hOk ⊢
  cases hsv : (mongoSaveDoc ed up now (saveTarget freshId session)).err with
  | some e => simp [hsv] at hOk
  | none =>
    simp only [hsv] at hOk ⊢
    obtain ⟨data, md, hed, hup⟩ := mongoSaveDoc_ok_shape ed up now _ hsv
    obtain ⟨hn, hv, _⟩ := saveTarget_fields freshId session
    rw [hn, hv] at hed
    cases henc : ec (saveTarget freshId session).name
        (saveTarget freshId session).id with
    | error e => simp [henc] at hOk
    | ok enc =>
      refine ⟨enc, data, md, ?_, ?_, ?_, ?_, ?_⟩ <;> simp [henc, hed, hup]

/-- Witness for C3: saving a fresh session through concrete codec and
driver functions puts the encoded id in the cookie and the encoded values
in the upserted document. -/
theorem save_cookie_carries_only_id_witness :
    (∃ encId data modified,
      ecSample saveOutcomeSample.session.name saveOutcomeSample.session.id
        = .ok encId ∧
      saveOutcomeSample.cookie = some encId ∧
      edSample saveSession.name saveSession.values = .ok data ∧
      saveOutcomeSample.upserted
        = some (saveOutcomeSample.session.id, ⟨data, modified⟩) ∧
      saveOutcomeSample.removed = none) ∧
    dalSave ecSample edSample upOk rmOk sampleHexId 7 saveSession
      = mongoSave ecSample edSample upOk rmOk sampleHexId 7 saveSession :=
  save_cookie_carries_only_id ecSample edSample upOk rmOk sampleHexId 7
    saveSession saveOutcomeSample rfl (by decide) (by decide)

/-- `saveTarget` on an empty id installs the fresh id. -/
theorem saveTarget_id_empty (freshId : String) (s : GSession) (h : s.id = "") :
    (saveTarget freshId s).id = freshId := by
  simp [saveTarget, h]

/-- When `mongoStore.delete` succeeds it removed the document under the
session's id. -/
theorem mongoDeleteDoc_removed (rm : String → Option GoErr) (s : GSession)
    (h : (mongoDeleteDoc rm s).err = none) :
    (mongoDeleteDoc rm s).removed = some s.id := by
  unfold mongoDeleteDoc at h ⊢
  cases hex : isObjectIdHex s.id with
  | false => simp [hex] at h
  | true =>
    simp only [hex] at h ⊢
    cases hrm : rm s.id with
    | some e => simp [hrm] at h
    | none => simp [hrm]

/-- C4 (amended): with negative MaxAge, `mongoStore.Save` never upserts
and never assigns a new id; when the backend delete succeeds it removes
the document under the session's id and sets the empty cookie, and when
the delete fails it sets no cookie at all. With non-negative MaxAge and
an empty ID, Save installs the fresh ObjectId hex before upserting. -/
theorem mongoSave_maxage_branches
    (ec : String → String → Except GoErr String)
    (ed : String → GoValues → Except GoErr String)
    (up : String → MongoDoc → Option GoErr) (rm : String → Option GoErr)
    (freshId : String) (now : Nat) (session : GSession) (o : SaveOutcome)
    (hO : o = mongoSave ec ed up rm freshId now session) :
    (session.opts.maxAge < 0 →
      o.upserted = none ∧ o.session = session ∧
      (o.err = none → o.removed = some session.id ∧ o.cookie = some "") ∧
      (o.err ≠ none → o.cookie = none ∧ o.removed = none)) ∧
    (0 ≤ session.opts.maxAge → session.id = "" →
      o.session.id = freshId ∧
      (o.err = none → ∃ d, o.upserted = some (freshId, d))) := by
  subst hO
  constructor
  · intro hneg
    simp only [mongoSave, if_pos hneg]
    cases hdel : (mongoDeleteDoc rm session).err with
    | some e => simp [hdel]
    | none => simp [hdel, mongoDeleteDoc_removed rm session hdel]
  · intro hpos hid
    have hlt : ¬ session.opts.maxAge < 0 := not_lt.mpr hpos
    have hids : (saveTarget freshId session).id = freshId :=
      saveTarget_id_empty freshId session hid
    simp only [mongoSave, if_neg hlt]
    cases hsv : (mongoSaveDoc ed up now (saveTarget freshId session)).err with
    | some e => simp [hsv, hids]
    | none =>
      obtain ⟨data, md, _, hup⟩ := mongoSaveDoc_ok_shape ed up now _ hsv
      rw [hids] at hup
      cases henc : ec (saveTarget freshId session).name
          (saveTarget freshId session).id with
      | error e => simp [hsv, henc, hids]
      | ok enc => exact ⟨by simp [hsv, henc, hids], fun _ => ⟨⟨data, md⟩, by simp [hsv, henc, hup]⟩⟩

/-- C4 counterexample: a fresh session (empty id, not a valid ObjectId
hex) with MaxAge -1: `Save` returns ErrInvalidId from `delete`, removes
nothing, and never sets the empty cookie the claim promises. -/
theorem mongoSave_negative_maxage_counterexample :
    (mongoSave ecSample edSample upOk rmOk sampleHexId 7 negSession).cookie
        = none ∧
    (mongoSave ecSample edSample upOk rmOk sampleHexId 7 negSession).err
        = some .errInvalidId ∧
    (mongoSave ecSample edSample upOk rmOk sampleHexId 7 negSession).removed
        = none := by
  decide

/-- Witness for C4 at a deletable session with a valid hex id: the
document is removed and the cookie emptied. -/
theorem mongoSave_maxage_branches_witness :
    (mongoSave ecSample edSample upOk rmOk sampleHexId 7 delSession).removed
        = some sampleHexId ∧
    (mongoSave ecSample edSample upOk rmOk sampleHexId 7 delSession).cookie
        = some "" :=
  ((mongoSave_maxage_branches ecSample edSample upOk rmOk sampleHexId 7
    delSession _ rfl).1 (by decide)).2.2.1 (by decide)

/-- C5: every failing step of `mongoStore.Save` — the backend delete, the
modified-value check and values encode, the backend upsert, or the cookie
encode of the id — makes Save return that error with no cookie set; a
cookie is set only when every preceding step succeeded. -/
theorem mongoSave_error_propagation
    (ec : String → String → Except GoErr String)
    (ed : String → GoValues → Except GoErr String)
    (up : String → MongoDoc → Option GoErr) (rm : String → Option GoErr)
    (freshId : String) (now : Nat) (session : GSession) (o : SaveOutcome)
    (hO : o = mongoSave ec ed up rm freshId now session) :
    (∀ c, o.cookie = some c → o.err = none) ∧
    (∀ e, session.opts.maxAge < 0 → isObjectIdHex session.id = true →
      rm session.id = some e → o.err = some e ∧ o.cookie = none) ∧
    (∀ e md, 0 ≤ session.opts.maxAge →
      isObjectIdHex (saveTarget freshId session).id = true →
      getModified session.values now = .ok md →
      ed session.name session.values = .error e →
      o.err = some e ∧ o.cookie = none) ∧
    (∀ e md data, 0 ≤ session.opts.maxAge →
      isObjectIdHex (saveTarget freshId session).id = true →
      getModified session.values now = .ok md →
      ed session.name session.values = .ok data →
      up (saveTarget freshId session).id ⟨data, md⟩ = some e →
      o.err = some e ∧ o.cookie = none) ∧
    (∀ e, 0 ≤ session.opts.maxAge →
      (mongoSaveDoc ed up now (saveTarget freshId session)).err = none →
      ec session.name (saveTarget freshId session).id = .error e →
      o.err = some e ∧ o.cookie = none) := by
  subst hO
  obtain ⟨hn, hv, _⟩ := saveTarget_fields freshId session
  refine ⟨?_, ?_, ?_, ?_, ?_⟩
  · intro c hc
    by_cases hneg : session.opts.maxAge < 0
    · simp only [mongoSave, if_pos hneg] at hc ⊢
      cases hdel : (mongoDeleteDoc rm session).err with
      | some e => simp [hdel] at hc
      | none => simp [hdel]
    · simp only [mongoSave, if_neg hneg] at hc ⊢
      cases hsv : (mongoSaveDoc ed up now (saveTarget freshId session)).err with
      | some e => simp [hsv] at hc
      | none =>
        simp only [hsv] at hc ⊢
        cases henc : ec (saveTarget freshId session).name
            (saveTarget freshId session).id with
        | error e => simp [henc] at hc
        | ok enc => simp [henc]
  · intro e hneg hex hrm
    simp [mongoSave, if_pos hneg, mongoDeleteDoc, hex, hrm]
  · intro e md hpos hex hmod hed
    have hlt : ¬ session.opts.maxAge < 0 := not_lt.mpr hpos
    rw [← hv] at hmod
    rw [← hn, ← hv] at hed
    simp [mongoSave, if_neg hlt, mongoSaveDoc, hex, hmod, hed]
  · intro e md data hpos hex hmod hed hup
    have hlt : ¬ session.opts.maxAge < 0 := not_lt.mpr hpos
    rw [← hv] at hmod
    rw [← hn, ← hv] at hed
    simp [mongoSave, if_neg hlt, mongoSaveDoc, hex, hmod, hed, hup]
  · intro e hpos hsv henc
    have hlt : ¬ session.opts.maxAge < 0 := not_lt.mpr hpos
    rw [← hn] at henc
    simp [mongoSave, if_neg hlt, hsv, henc]

/-- Witness for C5: a failing backend delete propagates driver error 7
and leaves the cookie unset. -/
theorem mongoSave_error_propagation_witness :
    (mongoSave ecSample edSample upOk rmFail sampleHexId 7 delSession).err
        = some (GoErr.errOther 7) ∧
    (mongoSave ecSample edSample upOk rmFail sampleHexId 7 delSession).cookie
        = none :=
  (mongoSave_error_propagation ecSample edSample upOk rmFail sampleHexId 7
    delSession _ rfl).2.1 (GoErr.errOther 7) (by decide) (by decide) rfl

/-- C7: for a session whose id is not a valid ObjectId hex,
`mongoStore.load`, `mongoStore.save` and `mongoStore.delete` each return
ErrInvalidId before any backend access: nothing is fetched, upserted or
removed and the session is left unchanged. -/
theorem mongo_invalid_id_rejected
    (find : String → Except GoErr MongoDoc)
    (dd : String → String → Except GoErr GoValues)
    (ed : String → GoValues → Except GoErr String)
    (up : String → MongoDoc → Option GoErr) (rm : String → Option GoErr)
    (now : Nat) (session : GSession)
    (h : isObjectIdHex session.id = false) :
    mongoLoad find dd session = ⟨false, some .errInvalidId, session, false⟩ ∧
    mongoSaveDoc ed up now session = ⟨some .errInvalidId, none⟩ ∧
    mongoDeleteDoc rm session = ⟨some .errInvalidId, none⟩ := by
  refine ⟨?_, ?_, ?_⟩ <;> simp [mongoLoad, mongoSaveDoc, mongoDeleteDoc, h]

/-- Witness for C7 at a session whose id is `"zzz"`. -/
theorem mongo_invalid_id_rejected_witness :
    mongoLoad findNx ddNil badIdSession
      = ⟨false, some .errInvalidId, badIdSession, false⟩ ∧
    mongoSaveDoc edSample upOk 7 badIdSession = ⟨some .errInvalidId, none⟩ ∧
    mongoDeleteDoc rmOk badIdSession = ⟨some .errInvalidId, none⟩ :=
  mongo_invalid_id_rejected findNx ddNil edSample upOk rmOk 7 badIdSession
    (by decide)

end NegroniSessions
